import Mathlib

/-!
Shallow embedding of `src/comm.py` (Moescape posts/comments scraper).

The embedding models the pure control flow and data transformations of the
script; network responses are abstracted as oracles (functions from request
offsets / attempt indices to outcomes), wall-clock sleeping and Streamlit UI
calls are side effects outside the model (error messages shown via
`st.error` are modelled as returned message strings where a claim needs
them), and the rate limiter's Python float arithmetic is modelled
exactly: a nonnegative IEEE-754 binary64 value is carried as the integer
numerator of its (unique) representation as a multiple of 2^-1074, on
which the program's doubling, halving and `min` have exact integer
semantics — including round-to-nearest-even underflow of the minimum
subnormal to zero.
-/

namespace Comm

/-! ## AdaptiveRateLimiter (src/comm.py lines 13-34)

The module instantiates exactly one limiter, `AdaptiveRateLimiter()`
(line 36), with the default parameters `initial_rate=1, max_rate=2,
backoff_factor=2`; the state machine embedded here is that instance, so
its two operations multiply and divide by the float `2.0`.  Fields
`last_call` and the `wait` method (real-time sleeping with jitter) are
outside the model.

`current_rate` is a Python float (IEEE-754 binary64).  Every nonnegative
finite binary64 value is an integer multiple of `2^-1074` (the minimum
subnormal); the model carries the numerator of that multiple as a `Nat`,
so `1.0` is `2^1074` units and `2.0` is `2^1075` units.  On every valid
encoding the program's operations act as follows, and the model
implements exactly this:
- `increase_rate`, `min(current_rate * 2, max_rate)`: doubling a float
  is exact (an exponent increment) whenever the product is finite, and
  when it would overflow to infinity the `min` returns `max_rate`, just
  as the `Nat` minimum of the exact product does;
- `decrease_rate`, `current_rate /= 2` (line 34): exact when the
  numerator is even (the quotient is representable, an exponent
  decrement); an odd numerator occurs only in the subnormal range
  (numerator below `2^53`), where the true quotient lies exactly halfway
  between the consecutive representable values `m / 2` and `m / 2 + 1`
  and IEEE round-to-nearest-even picks the even neighbour.  In
  particular halving the minimum subnormal (numerator `1`) underflows
  to exactly `0.0`. -/

structure AdaptiveRateLimiter where
  current_rate : Nat
  max_rate : Nat
deriving Repr, DecidableEq

/-- `1.0` in units of `2^-1074`. -/
def oneF : Nat := 2 ^ 1074

/-- `2.0` in units of `2^-1074`. -/
def twoF : Nat := 2 ^ 1075

def AdaptiveRateLimiter.init : AdaptiveRateLimiter :=
  { current_rate := oneF, max_rate := twoF }

/-- Binary64 division by two on the units numerator: exact on even
numerators, round-half-to-even on odd ones (which are subnormal-range,
so the neighbouring representables are the adjacent integers). -/
def halveF (m : Nat) : Nat :=
  if m % 2 = 0 then m / 2
  else if m / 2 % 2 = 0 then m / 2 else m / 2 + 1

def AdaptiveRateLimiter.increase_rate (s : AdaptiveRateLimiter) : AdaptiveRateLimiter :=
  { s with current_rate := min (2 * s.current_rate) s.max_rate }

def AdaptiveRateLimiter.decrease_rate (s : AdaptiveRateLimiter) : AdaptiveRateLimiter :=
  { s with current_rate := halveF s.current_rate }

/-- A finite sequence of rate adjustments, as performed by
`fetch_with_rate_limit` over a run. -/
inductive RateOp where
  | increase
  | decrease
deriving Repr, DecidableEq

def applyRateOp (s : AdaptiveRateLimiter) : RateOp → AdaptiveRateLimiter
  | .increase => s.increase_rate
  | .decrease => s.decrease_rate

def applyRateOps (s : AdaptiveRateLimiter) (ops : List RateOp) : AdaptiveRateLimiter :=
  ops.foldl applyRateOp s

/-! ## fetch_with_rate_limit (src/comm.py lines 39-61)

The tenacity decorator is `stop_after_attempt(5)`,
`retry_if_exception_type((CloudflareChallengeError, Exception))`,
`reraise=True`: every raised exception (including the Cloudflare
challenge, which the body catches, reports and re-raises) triggers a
retry until 5 attempts have been made, after which the last exception is
re-raised to the caller.  Each attempt's network outcome is abstracted as
an oracle from the 0-based attempt index to an outcome. -/

/-- Outcome of one `scraper.get(url)` + `raise_for_status()` attempt:
a 2xx response with JSON payload (abstracted as `Nat`), a Cloudflare
challenge (`CloudflareChallengeError` raised by the scraper), or an HTTP
error status raised by `raise_for_status` (429 = rate limited). -/
inductive AttemptOutcome where
  | ok (payload : Nat)
  | challenge
  | httpStatus (code : Nat)
deriving Repr, DecidableEq

inductive FetchError where
  | challengeError
  | httpError (code : Nat)
deriving Repr, DecidableEq

/-- Retry loop of the tenacity decorator: `fuel` is the number of attempts
still allowed (initially 5), `i` the 0-based index of the current attempt.
Returns the result together with the total number of attempts performed.
The `fuel = 0` base case is unreachable from the entry point. -/
def fetchGo (oracle : Nat → AttemptOutcome) : Nat → Nat → Except FetchError Nat × Nat
  | _, 0 => (.error (.httpError 0), 0)
  | i, fuel + 1 =>
    match oracle i with
    | .ok payload => (.ok payload, i + 1)
    | .challenge =>
      if fuel = 0 then (.error .challengeError, i + 1) else fetchGo oracle (i + 1) fuel
    | .httpStatus code =>
      if fuel = 0 then (.error (.httpError code), i + 1) else fetchGo oracle (i + 1) fuel

def fetch_with_rate_limit (oracle : Nat → AttemptOutcome) : Except FetchError Nat × Nat :=
  fetchGo oracle 0 5

/-! ## fetch_user_posts_generator (src/comm.py lines 63-87)

Pagination over `GET /v1/users/{user_id}/posts?offset={offset}&limit=500`.
The batch returned for a given offset is abstracted as an oracle
`pages : Nat → Except String (List Post)`; an `Except.error` models
`fetch_with_rate_limit` raising (after its retry budget), which the
generator catches (`except Exception`), reports via `st.error` and breaks
on.  The generator yields posts one at a time; we model the list of all
yielded posts, the `st.error` message if one was shown, and the list of
offsets actually requested. -/

structure Post where
  uuid : String
  title : String
  /-- `created_at` accessed via `x.get('created_at', '')` in the sort key,
  so it is modelled as optional. -/
  created_at : Option String
deriving Repr, DecidableEq

/-- `batch_size = 500  # API's maximum limit per request` -/
def batch_size : Nat := 500

structure PaginationResult where
  posts : List Post
  errorMsg : Option String
  offsetsFetched : List Nat
deriving Repr, DecidableEq

/-- The `while total_fetched < limit` loop.  `fuel` bounds the recursion
(each continuing iteration consumes a full batch of `batch_size ≥ 1`
posts, so `limit + 1` fuel at the entry point is never exhausted). -/
def fetchPostsLoop (pages : Nat → Except String (List Post)) (limit : Nat) :
    Nat → Nat → Nat → PaginationResult
  | 0, _, _ => ⟨[], none, []⟩
  | fuel + 1, offset, total_fetched =>
    if total_fetched < limit then
      match pages offset with
      | .error e => ⟨[], some ("Error fetching posts: " ++ e), [offset]⟩
      | .ok data =>
        if data.isEmpty then ⟨[], none, [offset]⟩
        else if data.length ≤ limit - total_fetched then
          -- every post of the batch is yielded; break if the batch was short
          if data.length < batch_size then ⟨data, none, [offset]⟩
          else
            let rest := fetchPostsLoop pages limit fuel (offset + batch_size)
              (total_fetched + data.length)
            ⟨data ++ rest.posts, rest.errorMsg, offset :: rest.offsetsFetched⟩
        else
          -- the limit is reached inside this batch: yield a prefix and return
          ⟨data.take (limit - total_fetched), none, [offset]⟩
    else ⟨[], none, []⟩

def fetch_user_posts_generator (pages : Nat → Except String (List Post))
    (limit : Nat := 2000) : PaginationResult :=
  fetchPostsLoop pages limit (limit + 1) 0 0

/-- The sequence of posts the server has available, read off batch by
batch from offset `start` until the first short (or empty) batch, with the
same fuel convention as the loop.  A hypothetical single unbounded fetch
would return exactly this sequence. -/
def availableFrom (pages : Nat → Except String (List Post)) :
    Nat → Nat → List Post
  | 0, _ => []
  | fuel + 1, offset =>
    match pages offset with
    | .error _ => []
    | .ok data =>
      if data.length < batch_size then data
      else data ++ availableFrom pages fuel (offset + batch_size)

def availablePosts (pages : Nat → Except String (List Post)) (limit : Nat) : List Post :=
  availableFrom pages (limit + 1) 0

/-! ## utc_to_eest (src/comm.py lines 103-106) and strftime

`utc_to_eest` replaces `'Z'` with `'+00:00'`, parses with
`datetime.fromisoformat`, forcibly re-tags the wall-clock time as UTC with
`.replace(tzinfo=pytz.UTC)` (discarding any explicit offset the string
carried), and converts to `Europe/Helsinki`; call sites format the result
with `.strftime('%Y-%m-%d %H:%M:%S %Z')`.

The model embeds proleptic-Gregorian calendar arithmetic (Hinnant's
civil-from-days algorithms), the EU daylight-saving rule for Helsinki
(EEST = UTC+3 from the last Sunday of March 01:00 UTC to the last Sunday
of October 01:00 UTC, EET = UTC+2 otherwise — the rule the tz database
applies to all years this pipeline can see), and the subset of
`fromisoformat` grammar exercised here: `YYYY-MM-DD`, a single separator
character, `HH:MM:SS`, and an optional `±HH:MM` offset, with the same
range validation `fromisoformat` performs. -/

structure NaiveDateTime where
  year : Nat
  month : Nat
  day : Nat
  hour : Nat
  minute : Nat
  second : Nat
deriving Repr, DecidableEq

def isLeapYear (y : Nat) : Bool :=
  (y % 4 == 0 && y % 100 != 0) || y % 400 == 0

def daysInMonth (y m : Nat) : Nat :=
  if m = 2 then (if isLeapYear y then 29 else 28)
  else if m = 4 ∨ m = 6 ∨ m = 9 ∨ m = 11 then 30
  else 31

/-- Day number of the civil date in a proleptic Gregorian calendar
(Hinnant's `days_from_civil`, shifted so results stay in `Nat`:
0000-03-01 is day 0; 1970-01-01 is day 719468). Valid for `y ≥ 1`. -/
def civilToDays (y m d : Nat) : Nat :=
  let y' := if m ≤ 2 then y - 1 else y
  let era := y' / 400
  let yoe := y' % 400
  let doy := (153 * (if m > 2 then m - 3 else m + 9) + 2) / 5 + (d - 1)
  let doe := yoe * 365 + yoe / 4 - yoe / 100 + doy
  era * 146097 + doe

/-- Inverse of `civilToDays` (Hinnant's `civil_from_days`). -/
def daysToCivil (n : Nat) : Nat × Nat × Nat :=
  let era := n / 146097
  let doe := n % 146097
  let yoe := ((doe - doe / 1460) + doe / 36524 - doe / 146096) / 365
  let y := yoe + era * 400
  let doy := doe - (yoe * 365 + yoe / 4 - yoe / 100)
  let mp := (5 * doy + 2) / 153
  let d := doy - (153 * mp + 2) / 5 + 1
  let m := if mp < 10 then mp + 3 else mp - 9
  (if m ≤ 2 then y + 1 else y, m, d)

/-- Day of week with Sunday = 0 (1970-01-01, day 719468, was a Thursday). -/
def dayOfWeek (y m d : Nat) : Nat :=
  (civilToDays y m d + 3) % 7

/-- Day of month of the last Sunday of a 31-day month `m` of year `y`. -/
def lastSunday (y m : Nat) : Nat :=
  31 - dayOfWeek y m 31

/-- Seconds since 0000-03-01 00:00:00 of a wall-clock datetime. -/
def NaiveDateTime.totalSeconds (dt : NaiveDateTime) : Nat :=
  civilToDays dt.year dt.month dt.day * 86400
    + dt.hour * 3600 + dt.minute * 60 + dt.second

/-- EU daylight-saving predicate on a UTC instant: EEST is in force from
the last Sunday of March 01:00 UTC (inclusive) to the last Sunday of
October 01:00 UTC (exclusive). -/
def inHelsinkiDST (dt : NaiveDateTime) : Bool :=
  let t := dt.totalSeconds
  let start := civilToDays dt.year 3 (lastSunday dt.year 3) * 86400 + 3600
  let stop := civilToDays dt.year 10 (lastSunday dt.year 10) * 86400 + 3600
  start ≤ t && t < stop

/-- Convert a UTC wall-clock datetime to Helsinki local time, returning
the local datetime and the zone abbreviation (`%Z` of the result). -/
def helsinkiFromUTC (dt : NaiveDateTime) : NaiveDateTime × String :=
  let offsetHours := if inHelsinkiDST dt then 3 else 2
  let total := dt.totalSeconds + offsetHours * 3600
  let (y, m, d) := daysToCivil (total / 86400)
  let secs := total % 86400
  (⟨y, m, d, secs / 3600, secs % 3600 / 60, secs % 60⟩,
   if inHelsinkiDST dt then "EEST" else "EET")

def digitVal (c : Char) : Option Nat :=
  if c.isDigit then some (c.toNat - 48) else none

def parse2 : List Char → Option (Nat × List Char)
  | c1 :: c2 :: rest => do
    let d1 ← digitVal c1
    let d2 ← digitVal c2
    pure (d1 * 10 + d2, rest)
  | _ => none

def parse4 : List Char → Option (Nat × List Char)
  | c1 :: c2 :: c3 :: c4 :: rest => do
    let d1 ← digitVal c1
    let d2 ← digitVal c2
    let d3 ← digitVal c3
    let d4 ← digitVal c4
    pure (d1 * 1000 + d2 * 100 + d3 * 10 + d4, rest)
  | _ => none

def expectChar (c : Char) : List Char → Option (List Char)
  | c' :: rest => if c' = c then some rest else none
  | [] => none

/-- A parsed UTC offset: sign (`true` = `+`), hours, minutes. -/
structure TzOffset where
  positive : Bool
  hours : Nat
  minutes : Nat
deriving Repr, DecidableEq

def parseOffset : List Char → Option TzOffset
  | sign :: rest =>
    if sign = '+' ∨ sign = '-' then do
      let (oh, rest) ← parse2 rest
      let rest ← expectChar ':' rest
      let (om, rest) ← parse2 rest
      if rest.isEmpty ∧ oh ≤ 23 ∧ om ≤ 59 then
        pure ⟨sign = '+', oh, om⟩
      else none
    else none
  | [] => none

/-- `datetime.fromisoformat` on the grammar subset this program feeds it:
`YYYY-MM-DD<sep>HH:MM:SS` with an optional `±HH:MM` offset, validating
field ranges as `fromisoformat` does. Returns the wall-clock components
and the offset when one was present. -/
def fromisoformat (s : String) : Option (NaiveDateTime × Option TzOffset) := do
  let cs := s.toList
  let (y, cs) ← parse4 cs
  let cs ← expectChar '-' cs
  let (mo, cs) ← parse2 cs
  let cs ← expectChar '-' cs
  let (d, cs) ← parse2 cs
  match cs with
  | [] => none
  | _sep :: cs => do
    let (h, cs) ← parse2 cs
    let cs ← expectChar ':' cs
    let (mi, cs) ← parse2 cs
    let cs ← expectChar ':' cs
    let (sec, cs) ← parse2 cs
    let off ← (if cs.isEmpty then pure none else (parseOffset cs).map some)
    if 1 ≤ y ∧ 1 ≤ mo ∧ mo ≤ 12 ∧ 1 ≤ d ∧ d ≤ daysInMonth y mo
        ∧ h ≤ 23 ∧ mi ≤ 59 ∧ sec ≤ 59 then
      pure (⟨y, mo, d, h, mi, sec⟩, off)
    else none

/-- `utc_dt.replace('Z', '+00:00')`: the pattern is a single character,
so Python's `str.replace` is exactly the substitution of every `'Z'` by
`"+00:00"`. -/
def replaceZ (s : String) : String :=
  ⟨s.data.flatMap fun c => if c = 'Z' then "+00:00".data else [c]⟩

/-- `utc_to_eest`: replace `'Z'` with `'+00:00'`, parse, drop the parsed
offset (`.replace(tzinfo=pytz.UTC)` re-tags the wall clock as UTC), and
convert to Helsinki.  `none` models the `ValueError` raised on a
malformed timestamp. -/
def utc_to_eest (s : String) : Option (NaiveDateTime × String) := do
  let (dt, _off) ← fromisoformat (replaceZ s)
  pure (helsinkiFromUTC dt)

def pad (w n : Nat) : String :=
  let s := toString n
  String.mk (List.replicate (w - s.length) '0') ++ s

/-- `.strftime('%Y-%m-%d %H:%M:%S %Z')` on an aware datetime. -/
def strftimeZ (dt : NaiveDateTime) (zone : String) : String :=
  pad 4 dt.year ++ "-" ++ pad 2 dt.month ++ "-" ++ pad 2 dt.day ++ " "
    ++ pad 2 dt.hour ++ ":" ++ pad 2 dt.minute ++ ":" ++ pad 2 dt.second
    ++ " " ++ zone

/-- The composition the program uses for every row's `date` field:
`utc_to_eest(ts).strftime('%Y-%m-%d %H:%M:%S %Z')`. -/
def formatTimestamp (s : String) : Option String :=
  (utc_to_eest s).map fun (dt, zone) => strftimeZ dt zone

/-! ## parse_comments (src/comm.py lines 108-134)

Raw comments are JSON objects; the fields the code reads
(`comment['profile']['name']`, `comment['text']`, `comment['created_at']`,
`comment['likes']`) are modelled as structure fields, `replies` is read
with `comment.get('replies') or []` so it is optional, and individual
reply entries may be null (`if reply:` skips them).  A `none` result
models the uncaught exception (`ValueError` from a malformed timestamp)
that aborts the whole call. -/

structure RawReply where
  name : String
  text : String
  created_at : String
  likes : Int
deriving Repr, DecidableEq

structure RawComment where
  name : String
  text : String
  created_at : String
  likes : Int
  /-- `none` models the `replies` key being absent or null; entries that
  are `none` model null elements inside the list. -/
  replies : Option (List (Option RawReply))
deriving Repr, DecidableEq

structure CommentRow where
  name : String
  comment : String
  date : String
  likes : Int
  post_title : String
  post_link : String
deriving Repr, DecidableEq

def post_link (post_uuid : String) : String :=
  "https://moescape.ai/posts/" ++ post_uuid

/-- `comment.get('replies') or []` -/
def effectiveReplies (c : RawComment) : List (Option RawReply) :=
  match c.replies with
  | none => []
  | some l => l

/-- The reply entries actually processed: non-null ones, in order. -/
def nonNullReplies (c : RawComment) : List RawReply :=
  (effectiveReplies c).filterMap id

def parseReply (post_uuid post_title : String) (r : RawReply) : Option CommentRow := do
  let date ← formatTimestamp r.created_at
  pure ⟨r.name, "↳ " ++ r.text, date, r.likes, post_title, post_link post_uuid⟩

/-- The inner `for reply in replies` loop over the non-null replies. -/
def parseReplies (post_uuid post_title : String) :
    List RawReply → Option (List CommentRow)
  | [] => some []
  | r :: rs => do
    let row ← parseReply post_uuid post_title r
    let rest ← parseReplies post_uuid post_title rs
    pure (row :: rest)

/-- The rows contributed by one top-level comment: its own row, then one
row per non-null reply. -/
def parseComment (post_uuid post_title : String) (c : RawComment) :
    Option (List CommentRow) := do
  let date ← formatTimestamp c.created_at
  let replyRows ← parseReplies post_uuid post_title (nonNullReplies c)
  pure (⟨c.name, c.text, date, c.likes, post_title, post_link post_uuid⟩ :: replyRows)

/-- The outer `for comment in comments` loop: each comment's rows are
appended in order; an exception anywhere (`none`) aborts the whole call. -/
def parse_comments : List RawComment → (post_uuid post_title : String) →
    Option (List CommentRow)
  | [], _, _ => some []
  | c :: cs, post_uuid, post_title => do
    let block ← parseComment post_uuid post_title c
    let rest ← parse_comments cs post_uuid post_title
    pure (block ++ rest)

/-! ## Post sorting (src/comm.py line 156)

`all_posts.sort(key=lambda x: x.get('created_at', ''), reverse=(order ==
'Most Recent'))`.  CPython's `list.sort` is a stable sort by the key; with
`reverse=True` it is the stable descending sort (equal keys keep their
original relative order).  Both are `mergeSort` with the corresponding
boolean comparison on keys. -/

inductive SortOrder where
  | mostRecent
  | oldest
deriving Repr, DecidableEq

def sortKey (p : Post) : String := p.created_at.getD ""

def sortPosts (order : SortOrder) (posts : List Post) : List Post :=
  match order with
  | .mostRecent => posts.mergeSort fun a b => decide (sortKey b ≤ sortKey a)
  | .oldest => posts.mergeSort fun a b => decide (sortKey a ≤ sortKey b)

/-! ## fetch_post_comments (src/comm.py lines 93-101) and the
orchestrator comment loop (lines 162-166)

`fetch_post_comments` builds
`https://api.moescape.ai/v1/posts/{post_uuid}/comments?offset=0&limit=20`
— a single request with page size 20 and no pagination — and passes it to
`fetch_with_rate_limit`.  If that call raises, no handler exists in
`fetch_post_comments` or in the orchestrator loop, so the exception
aborts the run.  A truthy payload yields `data['comments']`; a falsy one
reports an error and yields `[]`.  The network is abstracted as an
oracle from the post uuid to the fetch outcome: `.error` = the fetch
raised, `.ok none` = falsy payload, `.ok (some cs)` = payload whose
`'comments'` key holds `cs`. -/

def comments_page_limit : Nat := 20

def fetch_post_comments_url (post_uuid : String) : String :=
  "https://api.moescape.ai/v1/posts/" ++ post_uuid
    ++ "/comments?offset=0&limit=" ++ toString comments_page_limit

def fetch_post_comments (fetchResult : Except String (Option (List RawComment))) :
    Except String (List RawComment) :=
  match fetchResult with
  | .error e => .error e
  | .ok (some comments) => .ok comments
  | .ok none => .ok []

/-- The `for i, post in enumerate(all_posts)` loop with accumulator
`all_comments`: fetch each post's comments, parse, extend.  No
`try/except` surrounds the body, so a raising fetch or parse aborts the
loop (`Except.error`). -/
def commentLoopGo (fetchComments : String → Except String (Option (List RawComment)))
    (acc : List CommentRow) : List Post → Except String (List CommentRow)
  | [] => .ok acc
  | post :: rest =>
    match fetch_post_comments (fetchComments post.uuid) with
    | .error e => .error e
    | .ok comments =>
      match parse_comments comments post.uuid post.title with
      | none =>
        Except.error ("unhandled exception parsing comments of post " ++ post.uuid)
      | some rows => commentLoopGo fetchComments (acc ++ rows) rest

def commentLoop (fetchComments : String → Except String (Option (List RawComment)))
    (posts : List Post) : Except String (List CommentRow) :=
  commentLoopGo fetchComments [] posts

/-- The whole pipeline run (src/comm.py lines 142-166): collect posts from
the generator, sort per the requested order, then run the comment loop. -/
def orchestrator (pages : Nat → Except String (List Post))
    (fetchComments : String → Except String (Option (List RawComment)))
    (num_posts : Nat) (order : SortOrder) : Except String (List CommentRow) :=
  let all_posts := (fetch_user_posts_generator pages num_posts).posts
  commentLoop fetchComments (sortPosts order all_posts)

/-- The rows one post contributes to the aggregate when its processing
does not raise: `some rows` when the fetch returns normally and parsing
succeeds, `none` when either raises. -/
def postContribution (fetchComments : String → Except String (Option (List RawComment)))
    (p : Post) : Option (List CommentRow) :=
  match fetch_post_comments (fetchComments p.uuid) with
  | .error _ => none
  | .ok cs => parse_comments cs p.uuid p.title

/-! # Theorems -/

/-- Binary64 halving never increases the numerator. -/
theorem halveF_le (m : Nat) : halveF m ≤ m := by
  unfold halveF
  split_ifs <;> omega

/-- Binary64 halving of a value of at least two units stays positive:
only the minimum subnormal can underflow. -/
theorem halveF_pos (m : Nat) (h : 2 ≤ m) : 0 < halveF m := by
  unfold halveF
  split_ifs <;> omega

/-- Halving a power of two is exact. -/
theorem halveF_pow (j : Nat) : halveF (2 ^ (j + 1)) = 2 ^ j := by
  have h : 2 ^ (j + 1) = 2 ^ j * 2 := by rw [Nat.pow_succ]
  simp [halveF, h]

/-- `k` consecutive `decrease_rate` calls from a power-of-two rate halve
it exactly `k` times (all intermediate numerators are even). -/
theorem applyRateOps_decrease_pow :
    ∀ (k j mx : Nat),
      applyRateOps ⟨2 ^ (j + k), mx⟩ (List.replicate k RateOp.decrease)
        = ⟨2 ^ j, mx⟩ := by
  intro k
  induction k with
  | zero => intro j mx; rfl
  | succ k ih =>
    intro j mx
    have hjk : j + (k + 1) = (j + k) + 1 := by omega
    have hstep : applyRateOp ⟨2 ^ (j + (k + 1)), mx⟩ RateOp.decrease
        = ⟨2 ^ (j + k), mx⟩ := by
      simp only [applyRateOp, AdaptiveRateLimiter.decrease_rate, hjk, halveF_pow]
    rw [List.replicate_succ, applyRateOps, List.foldl_cons, hstep]
    exact ih j mx

/-- C9 counterexample: from the program's initial state (`rate = 1.0`,
i.e. `2^1074` units), 1075 consecutive `decrease_rate` calls drive the
float rate to exactly `0.0` — 1074 exact halvings reach the minimum
subnormal, and the final halving underflows — so the rate does not stay
in the interval `(0, max_rate]`. -/
theorem rate_underflows_to_zero_cex :
    (applyRateOps AdaptiveRateLimiter.init
        (List.replicate 1075 RateOp.decrease)).current_rate = 0
      ∧ ¬ 0 < (applyRateOps AdaptiveRateLimiter.init
          (List.replicate 1075 RateOp.decrease)).current_rate := by
  have h1074 : applyRateOps AdaptiveRateLimiter.init
      (List.replicate 1074 RateOp.decrease) = ⟨1, twoF⟩ := by
    have h := applyRateOps_decrease_pow 1074 0 twoF
    rw [Nat.zero_add, pow_zero] at h
    exact h
  have hz : (applyRateOps AdaptiveRateLimiter.init
      (List.replicate 1075 RateOp.decrease)).current_rate = 0 := by
    rw [show (1075 : Nat) = 1074 + 1 from rfl, List.replicate_succ',
      applyRateOps, List.foldl_append]
    rw [show List.foldl applyRateOp AdaptiveRateLimiter.init
        (List.replicate 1074 RateOp.decrease) = (⟨1, twoF⟩ : AdaptiveRateLimiter)
      from h1074]
    rfl
  exact ⟨hz, fun hpos => Nat.lt_irrefl 0 (by rwa [hz] at hpos)⟩

/-- One float rate adjustment preserves the `max_rate` cap and the
configuration. -/
theorem applyRateOp_le_max (s : AdaptiveRateLimiter) (op : RateOp)
    (hle : s.current_rate ≤ s.max_rate) :
    (applyRateOp s op).current_rate ≤ s.max_rate
      ∧ (applyRateOp s op).max_rate = s.max_rate := by
  cases op with
  | increase => exact ⟨min_le_right _ _, rfl⟩
  | decrease => exact ⟨le_trans (halveF_le _) hle, rfl⟩

/-- C9 amended: with the program's float arithmetic (binary64, factor 2),
any finite sequence of `increase_rate` / `decrease_rate` operations from
a state with `current_rate ≤ max_rate` keeps the rate at most `max_rate`
and never negative (both operations stay within the nonnegative floats,
which the numerator representation carries); halving never increases the
rate, and it keeps the rate strictly positive whenever the rate is at
least two units (`2^-1073`) — but not always: underflow at the minimum
subnormal reaches exactly zero, so `(0, max_rate]` is not invariant. -/
theorem rate_limiter_float_bounds (s : AdaptiveRateLimiter) (ops : List RateOp)
    (hle : s.current_rate ≤ s.max_rate) :
    ((applyRateOps s ops).current_rate ≤ s.max_rate
        ∧ (applyRateOps s ops).max_rate = s.max_rate)
      ∧ (∀ m : Nat, 2 ≤ m → 0 < halveF m)
      ∧ (∀ m : Nat, halveF m ≤ m) := by
  refine ⟨?_, fun m hm => halveF_pos m hm, fun m => halveF_le m⟩
  induction ops generalizing s with
  | nil => exact ⟨hle, rfl⟩
  | cons op ops ih =>
    obtain ⟨h1, h2⟩ := applyRateOp_le_max s op hle
    have hrec := ih (applyRateOp s op) (le_of_le_of_eq h1 h2.symm)
    exact ⟨le_of_le_of_eq hrec.1 h2, hrec.2.trans h2⟩

/-- Witness for `rate_limiter_float_bounds` at the program's initial
state and a concrete operation sequence. -/
theorem rate_limiter_float_bounds_witness :
    ((applyRateOps AdaptiveRateLimiter.init
          [RateOp.increase, RateOp.decrease, RateOp.decrease]).current_rate
            ≤ AdaptiveRateLimiter.init.max_rate
        ∧ (applyRateOps AdaptiveRateLimiter.init
            [RateOp.increase, RateOp.decrease, RateOp.decrease]).max_rate
              = AdaptiveRateLimiter.init.max_rate)
      ∧ (∀ m : Nat, 2 ≤ m → 0 < halveF m)
      ∧ (∀ m : Nat, halveF m ≤ m) :=
  rate_limiter_float_bounds AdaptiveRateLimiter.init
    [RateOp.increase, RateOp.decrease, RateOp.decrease]
    (Nat.pow_le_pow_right (by omega) (by omega))

/-- C1 counterexample: when every attempt hits the anti-bot challenge,
`fetch_with_rate_limit` performs 5 attempts, not 1 — the challenge is
listed in `retry_if_exception_type`, so it is retried, contradicting the
claim that no further attempts are performed after a challenge. -/
theorem challenge_is_retried_cex :
    (fetch_with_rate_limit fun _ => AttemptOutcome.challenge).2 = 5 ∧
      (fetch_with_rate_limit fun _ => AttemptOutcome.challenge).2 ≠ 1 := by
  decide

/-- C1 amended: a challenge response is retried like any other raised
exception; when every attempt observes the challenge, the fetch performs
the full 5-attempt budget and then surfaces the challenge failure
(`reraise=True`). -/
theorem challenge_retried_until_budget (oracle : Nat → AttemptOutcome)
    (h : ∀ i, i < 5 → oracle i = .challenge) :
    fetch_with_rate_limit oracle = (Except.error FetchError.challengeError, 5) := by
  have h0 := h 0 (by omega)
  have h1 := h 1 (by omega)
  have h2 := h 2 (by omega)
  have h3 := h 3 (by omega)
  have h4 := h 4 (by omega)
  simp [fetch_with_rate_limit, fetchGo, h0, h1, h2, h3, h4]

/-- Witness for `challenge_retried_until_budget` on the constant
challenge oracle. -/
theorem challenge_retried_until_budget_witness :
    fetch_with_rate_limit (fun _ => AttemptOutcome.challenge)
      = (Except.error FetchError.challengeError, 5) :=
  challenge_retried_until_budget (fun _ => .challenge) (fun _ _ => rfl)

/-- C3 counterexample: the comment fetch issues a single request whose
page size is 20, not a page size of up to 500. -/
theorem comment_page_size_is_20_cex :
    fetch_post_comments_url "abc123"
        = "https://api.moescape.ai/v1/posts/abc123/comments?offset=0&limit=20"
      ∧ comments_page_limit = 20 ∧ comments_page_limit ≠ 500 := by
  decide

/-- C3 amended: for every post, the comment fetch is one request at
offset 0 with page size 20 (so comments beyond the first 20 are never
requested). -/
theorem comment_fetch_single_page_limit_20 (post_uuid : String) :
    fetch_post_comments_url post_uuid
      = "https://api.moescape.ai/v1/posts/" ++ post_uuid
          ++ "/comments?offset=0&limit=20" := by
  simp only [fetch_post_comments_url, comments_page_limit, String.append_assoc]
  rfl

/-- C10: a comment whose `replies` field is absent or null (both read
back as `None` by `comment.get('replies')`) or an empty list parses to
exactly its own single row — `comment.get('replies') or []` guards the
reply loop, so normalization does not fail. -/
theorem empty_replies_single_row (c : RawComment) (pid title d : String)
    (hrep : c.replies = none ∨ c.replies = some [])
    (hd : formatTimestamp c.created_at = some d) :
    parseComment pid title c =
      some [⟨c.name, c.text, d, c.likes, title, post_link pid⟩] := by
  rcases hrep with h | h <;>
    simp [parseComment, parseReplies, nonNullReplies, effectiveReplies, h, hd]

/-- The posts yielded by the pagination loop are exactly the available
stream from the same starting offset, truncated at the remaining quota
`limit - total`. -/
theorem fetchPostsLoop_posts (pages : Nat → Except String (List Post)) (limit : Nat)
    (fuel : Nat) : ∀ (offset total : Nat),
    (fetchPostsLoop pages limit fuel offset total).posts
      = (availableFrom pages fuel offset).take (limit - total) := by
  induction fuel with
  | zero => intro offset total; simp [fetchPostsLoop, availableFrom]
  | succ fuel ih =>
    intro offset total
    by_cases hlt : total < limit
    · cases hp : pages offset with
      | error e => simp [fetchPostsLoop, availableFrom, hlt, hp]
      | ok data =>
        by_cases hemp : data.isEmpty
        · have hnil : data = [] := List.isEmpty_iff.mp hemp
          subst hnil
          simp [fetchPostsLoop, availableFrom, hlt, hp, batch_size]
        · by_cases hfit : data.length ≤ limit - total
          · by_cases hshort : data.length < batch_size
            · simp [fetchPostsLoop, availableFrom, hlt, hp, hemp, hfit, hshort,
                List.take_of_length_le hfit]
            · have hrec := ih (offset + batch_size) (total + data.length)
              simp only [fetchPostsLoop, availableFrom, hlt, if_true, hp, hemp,
                Bool.false_eq_true, if_false, hfit, hshort]
              rw [List.take_append_eq_append_take, List.take_of_length_le hfit, hrec,
                Nat.sub_sub]
          · have hgt : limit - total ≤ data.length := by omega
            by_cases hshort : data.length < batch_size
            · simp [fetchPostsLoop, availableFrom, hlt, hp, hemp, hfit, hshort]
            · have hz : limit - total - data.length = 0 := by omega
              simp [fetchPostsLoop, availableFrom, hlt, hp, hemp, hfit, hshort,
                List.take_append_eq_append_take, hz]
    · have hz : limit - total = 0 := by omega
      simp [fetchPostsLoop, hlt, hz]

/-- Peeling the first index off an arithmetic-progression map over
`List.range`. -/
theorem map_offset_range (off b k : Nat) :
    (List.range (k + 1)).map (fun i => off + i * b)
      = off :: (List.range k).map (fun i => off + b + i * b) := by
  rw [List.range_succ_eq_map]
  simp only [List.map_cons, List.map_map, Nat.zero_mul, Nat.add_zero]
  refine congrArg _ (List.map_congr_left fun i _ => ?_)
  simp only [Function.comp_apply, Nat.succ_eq_add_one]
  ring

/-- Special case: a one-element arithmetic-progression map. -/
theorem map_offset_range_one (off b : Nat) :
    (List.range 1).map (fun i => off + i * b) = [off] := by
  simpa using map_offset_range off b 0

/-- Peeling the first batch off a flattened map over `List.range`. -/
theorem flatten_map_range_succ {α : Type} (bs : Nat → List α) (m : Nat) :
    ((List.range (m + 1)).map bs).flatten
      = bs 0 ++ ((List.range m).map (fun i => bs (i + 1))).flatten := by
  rw [List.range_succ_eq_map]
  simp only [List.map_cons, List.flatten_cons, List.map_map]
  exact congrArg₂ _ rfl (congrArg List.flatten (List.map_congr_left fun i _ => rfl))

/-- The offsets requested by the pagination loop form an arithmetic
progression `offset, offset + 500, …`. -/
theorem fetchPostsLoop_offsets (pages : Nat → Except String (List Post)) (limit : Nat)
    (fuel : Nat) : ∀ (offset total : Nat),
    ∃ k, (fetchPostsLoop pages limit fuel offset total).offsetsFetched
      = (List.range k).map (fun i => offset + i * batch_size) := by
  induction fuel with
  | zero => intro offset total; exact ⟨0, by simp [fetchPostsLoop]⟩
  | succ fuel ih =>
    intro offset total
    by_cases hlt : total < limit
    · cases hp : pages offset with
      | error e => exact ⟨1, by simp [fetchPostsLoop, hlt, hp, map_offset_range_one]⟩
      | ok data =>
        by_cases hemp : data.isEmpty
        · exact ⟨1, by simp [fetchPostsLoop, hlt, hp, hemp, map_offset_range_one]⟩
        · by_cases hfit : data.length ≤ limit - total
          · by_cases hshort : data.length < batch_size
            · exact ⟨1, by simp [fetchPostsLoop, hlt, hp, hemp, hfit, hshort,
                map_offset_range_one]⟩
            · obtain ⟨k, hk⟩ := ih (offset + batch_size) (total + data.length)
              refine ⟨k + 1, ?_⟩
              simp only [fetchPostsLoop, hlt, if_true, hp, hemp, Bool.false_eq_true,
                if_false, hfit, hshort]
              rw [hk, map_offset_range]
          · by_cases hshort : data.length < batch_size
            · exact ⟨1, by simp [fetchPostsLoop, hlt, hp, hemp, hfit, hshort,
                map_offset_range_one]⟩
            · exact ⟨1, by simp [fetchPostsLoop, hlt, hp, hemp, hfit, hshort,
                map_offset_range_one]⟩
    · exact ⟨0, by simp [fetchPostsLoop, hlt]⟩

/-- C4: for every page oracle and every limit `N`, the paginator yields
exactly the server-available stream (batches read at offsets 0, 500,
1000, … until the first short batch) truncated at `N` — hence at most
`N` posts, in server order with no sort — and the offsets it requests
are `0, 500, 1000, …`, incrementing by the batch size 500. -/
theorem paginator_yields_available_take_limit
    (pages : Nat → Except String (List Post)) (limit : Nat) :
    (fetch_user_posts_generator pages limit).posts
        = (availablePosts pages limit).take limit
      ∧ (fetch_user_posts_generator pages limit).posts.length ≤ limit
      ∧ ∃ k, (fetch_user_posts_generator pages limit).offsetsFetched
          = (List.range k).map (· * batch_size) := by
  refine ⟨?_, ?_, ?_⟩
  · simpa [fetch_user_posts_generator, availablePosts]
      using fetchPostsLoop_posts pages limit (limit + 1) 0 0
  · rw [fetch_user_posts_generator, fetchPostsLoop_posts pages limit (limit + 1) 0 0]
    simpa using List.length_take_le limit _
  · obtain ⟨k, hk⟩ := fetchPostsLoop_offsets pages limit (limit + 1) 0 0
    exact ⟨k, by simpa [fetch_user_posts_generator] using hk⟩

/-- A mid-pagination failure after `m` full batches: the loop returns the
posts of the `m` successful batches, the reported error, and requests
exactly the offsets of those `m + 1` fetches. -/
theorem fetchPostsLoop_error_partial (pages : Nat → Except String (List Post))
    (limit : Nat) (e : String) :
    ∀ (m fuel offset total : Nat) (bs : Nat → List Post),
      (∀ i, i < m → pages (offset + i * batch_size) = .ok (bs i)
        ∧ (bs i).length = batch_size) →
      pages (offset + m * batch_size) = .error e →
      total + m * batch_size < limit →
      m + 1 ≤ fuel →
      fetchPostsLoop pages limit fuel offset total
        = ⟨((List.range m).map bs).flatten,
           some ("Error fetching posts: " ++ e),
           (List.range (m + 1)).map (fun i => offset + i * batch_size)⟩ := by
  intro m
  induction m with
  | zero =>
    intro fuel offset total bs _ herr hlim hfuel
    obtain ⟨fuel, rfl⟩ : ∃ f, fuel = f + 1 := ⟨fuel - 1, by omega⟩
    have hlt : total < limit := by omega
    have herr' : pages offset = .error e := by simpa using herr
    simp [fetchPostsLoop, hlt, herr', map_offset_range_one]
  | succ m ih =>
    intro fuel offset total bs hok herr hlim hfuel
    obtain ⟨fuel, rfl⟩ : ∃ f, fuel = f + 1 := ⟨fuel - 1, by omega⟩
    have hlim' : total + (m + 1) * 500 < limit := by
      simpa only [batch_size] using hlim
    have hlen0' : (bs 0).length = 500 := by
      simpa only [batch_size] using (hok 0 (by omega)).2
    have hlt : total < limit := by omega
    have h0' : pages offset = .ok (bs 0) := by simpa using (hok 0 (by omega)).1
    have hemp : (bs 0).isEmpty = false := by
      rw [List.isEmpty_eq_false_iff_exists_mem]
      exact List.exists_mem_of_length_pos (by omega)
    have hfit : (bs 0).length ≤ limit - total := by
      rw [hlen0']; omega
    have hshort : ¬ ((bs 0).length < batch_size) := by
      simp only [batch_size]; omega
    have hrec := ih fuel (offset + batch_size) (total + (bs 0).length)
      (fun i => bs (i + 1))
      (fun i hi => by
        have h := hok (i + 1) (by omega)
        have harg : offset + batch_size + i * batch_size
            = offset + (i + 1) * batch_size := by ring
        exact ⟨by rw [harg]; exact h.1, h.2⟩)
      (by
        have harg : offset + batch_size + m * batch_size
            = offset + (m + 1) * batch_size := by ring
        rw [harg]; exact herr)
      (by simp only [batch_size, hlen0']; omega)
      (by omega)
    simp only [fetchPostsLoop, hlt, if_true, h0', hemp, Bool.false_eq_true, if_false,
      hfit, hshort, hrec]
    congr 1
    · rw [flatten_map_range_succ]
    · rw [map_offset_range offset batch_size (m + 1)]

/-- C8: if the fetch of the batch at offset `k·500` fails after `k` full
batches (with the post quota not yet reached), the paginator stops
fetching — exactly the offsets `0, 500, …, k·500` are requested — and
returns the posts collected from the earlier batches together with the
reported error message, rather than discarding them. -/
theorem paginator_partial_on_error (pages : Nat → Except String (List Post))
    (limit k : Nat) (bs : Nat → List Post) (e : String)
    (hok : ∀ i, i < k → pages (i * batch_size) = .ok (bs i)
      ∧ (bs i).length = batch_size)
    (herr : pages (k * batch_size) = .error e)
    (hlim : k * batch_size < limit) :
    fetch_user_posts_generator pages limit
      = ⟨((List.range k).map bs).flatten,
         some ("Error fetching posts: " ++ e),
         (List.range (k + 1)).map (· * batch_size)⟩ := by
  have hlim' : k * 500 < limit := by simpa only [batch_size] using hlim
  have h := fetchPostsLoop_error_partial pages limit e k (limit + 1) 0 0 bs
    (fun i hi => by simpa using hok i hi)
    (by simpa using herr)
    (by simp only [batch_size]; omega)
    (by omega)
  rw [fetch_user_posts_generator, h]
  simp

set_option maxRecDepth 10000 in
/-- Witness for `paginator_partial_on_error`: one full batch of 500
posts, then a failing fetch at offset 500. -/
theorem paginator_partial_on_error_witness :
    fetch_user_posts_generator
        (fun o => if o = 0
          then Except.ok (List.replicate 500 (⟨"u", "t", none⟩ : Post))
          else Except.error "boom") 2000
      = ⟨List.replicate 500 (⟨"u", "t", none⟩ : Post),
         some ("Error fetching posts: " ++ "boom"), [0, 500]⟩ := by
  have h := paginator_partial_on_error
    (fun o => if o = 0
      then Except.ok (List.replicate 500 (⟨"u", "t", none⟩ : Post))
      else Except.error "boom") 2000 1
    (fun _ => List.replicate 500 (⟨"u", "t", none⟩ : Post)) "boom"
    (fun i hi => by
      have hi0 : i = 0 := by omega
      subst hi0
      exact ⟨rfl, (List.length_replicate _ _).trans rfl⟩)
    rfl
    (by norm_num [batch_size])
  rw [h]
  simp [List.range_succ, batch_size]

/-- Witness for `empty_replies_single_row` on a concrete comment with no
`replies` field. -/
theorem empty_replies_single_row_witness :
    parseComment "u" "ti" ⟨"n", "tx", "2024-06-15T10:00:00Z", 7, none⟩ =
      some [⟨"n", "tx", "2024-06-15 13:00:00 EEST", 7, "ti",
        "https://moescape.ai/posts/u"⟩] :=
  empty_replies_single_row ⟨"n", "tx", "2024-06-15T10:00:00Z", 7, none⟩ "u" "ti"
    "2024-06-15 13:00:00 EEST" (Or.inl rfl) (by decide)


/-- Processing a post list in which every post's contribution is defined
appends exactly the concatenation of the per-post contributions. -/
theorem commentLoopGo_ok (fetch : String → Except String (Option (List RawComment))) :
    ∀ (posts : List Post) (acc : List CommentRow),
      (∀ p ∈ posts, (postContribution fetch p).isSome) →
      commentLoopGo fetch acc posts
        = .ok (acc ++ posts.flatMap fun p => (postContribution fetch p).getD []) := by
  intro posts
  induction posts with
  | nil => intro acc _; simp [commentLoopGo]
  | cons p rest ih =>
    intro acc h
    obtain ⟨rows, hrows⟩ := Option.isSome_iff_exists.mp (h p (by simp))
    rcases hfc : fetch_post_comments (fetch p.uuid) with e | cs
    · simp [postContribution, hfc] at hrows
    · have hparse : parse_comments cs p.uuid p.title = some rows := by
        simpa [postContribution, hfc] using hrows
      have hstep := ih (acc ++ rows) (fun q hq => h q (by simp [hq]))
      simp only [commentLoopGo, hfc, hparse, hstep]
      simp [hrows]

/-- A post whose contribution is undefined (raising fetch or parse)
aborts the loop, whatever came before it. -/
theorem commentLoopGo_abort (fetch : String → Except String (Option (List RawComment))) :
    ∀ (pre : List Post) (acc : List CommentRow) (p : Post) (rest : List Post),
      (∀ q ∈ pre, (postContribution fetch q).isSome) →
      postContribution fetch p = none →
      ∃ msg, commentLoopGo fetch acc (pre ++ p :: rest) = .error msg := by
  intro pre
  induction pre with
  | nil =>
    intro acc p rest _ hnone
    rcases hfc : fetch_post_comments (fetch p.uuid) with e | cs
    · exact ⟨e, by simp [commentLoopGo, hfc]⟩
    · have hparse : parse_comments cs p.uuid p.title = none := by
        simpa [postContribution, hfc] using hnone
      exact ⟨"unhandled exception parsing comments of post " ++ p.uuid,
        by simp [commentLoopGo, hfc, hparse]⟩
  | cons q pre ih =>
    intro acc p rest h hnone
    obtain ⟨rows, hrows⟩ := Option.isSome_iff_exists.mp (h q (by simp))
    rcases hfc : fetch_post_comments (fetch q.uuid) with e | cs
    · simp [postContribution, hfc] at hrows
    · have hparse : parse_comments cs q.uuid q.title = some rows := by
        simpa [postContribution, hfc] using hrows
      obtain ⟨msg, hmsg⟩ := ih (acc ++ rows) p rest (fun r hr => h r (by simp [hr])) hnone
      exact ⟨msg, by simp [commentLoopGo, hfc, hparse, hmsg]⟩

/-- C2 counterexample: a post whose comment fetch raises aborts the whole
run — the orchestrator loop has no handler — instead of contributing
zero rows and continuing with the remaining posts. -/
theorem comment_fetch_failure_aborts_run_cex :
    commentLoop (fun u => if u = "p1" then .error "boom" else .ok (some []))
        [⟨"p1", "t1", none⟩, ⟨"p2", "t2", none⟩] = .error "boom"
      ∧ ∀ rows, commentLoop (fun u => if u = "p1" then .error "boom" else .ok (some []))
          [⟨"p1", "t1", none⟩, ⟨"p2", "t2", none⟩] ≠ Except.ok rows := by
  have h1 : commentLoop (fun u => if u = "p1" then .error "boom" else .ok (some []))
      [⟨"p1", "t1", none⟩, ⟨"p2", "t2", none⟩] = .error "boom" := rfl
  exact ⟨h1, fun rows h => Except.noConfusion (h1 ▸ h)⟩

/-- C2 amended: in the orchestrator comment loop, (1) when every post's
comment fetch returns normally and parses, the run succeeds with the
concatenation of per-post contributions; (2) a fetch returning a falsy
payload degrades to an empty contribution for that post; but (3) a post
whose comment fetch or normalization raises aborts the run with an error
— the failure is not caught at the orchestrator level. -/
theorem comment_loop_error_policy :
    (∀ (fetch : String → Except String (Option (List RawComment))) (posts : List Post),
        (∀ p ∈ posts, (postContribution fetch p).isSome) →
        commentLoop fetch posts
          = .ok (posts.flatMap fun p => (postContribution fetch p).getD []))
      ∧ (∀ (fetch : String → Except String (Option (List RawComment))) (p : Post),
          fetch p.uuid = .ok none → postContribution fetch p = some [])
      ∧ (∀ (fetch : String → Except String (Option (List RawComment)))
          (pre : List Post) (p : Post) (rest : List Post),
          (∀ q ∈ pre, (postContribution fetch q).isSome) →
          postContribution fetch p = none →
          ∃ msg, commentLoop fetch (pre ++ p :: rest) = .error msg) := by
  refine ⟨?_, ?_, ?_⟩
  · intro fetch posts h
    simpa using commentLoopGo_ok fetch posts [] h
  · intro fetch p h
    simp [postContribution, fetch_post_comments, h, parse_comments]
  · intro fetch pre p rest h hnone
    exact commentLoopGo_abort fetch pre [] p rest h hnone

/-- Witness for `comment_loop_error_policy` on concrete runs: a falsy
comment payload yields a successful empty run, a raising fetch yields an
aborted run. -/
theorem comment_loop_error_policy_witness :
    commentLoop (fun _ => Except.ok none) [⟨"a", "t", none⟩] = Except.ok []
      ∧ (∃ msg, commentLoop (fun _ => Except.error "x") [⟨"a", "t", none⟩]
          = Except.error msg) := by
  constructor
  · have h := comment_loop_error_policy.1 (fun _ => Except.ok none) [⟨"a", "t", none⟩]
      (fun p hp => by rw [List.mem_singleton] at hp; subst hp; rfl)
    exact h.trans rfl
  · obtain ⟨msg, hmsg⟩ := comment_loop_error_policy.2.2 (fun _ => Except.error "x")
      [] ⟨"a", "t", none⟩ [] (fun q hq => absurd hq (List.not_mem_nil q)) rfl
    exact ⟨msg, hmsg⟩

/-- Projection of the reply rows: names, marker-prefixed texts and likes
come from the non-null replies in order. -/
theorem parseReplies_proj (pid title : String) :
    ∀ (rs : List RawReply) (l : List CommentRow),
      parseReplies pid title rs = some l →
      l.map (fun r => (r.name, r.comment, r.likes))
        = rs.map (fun r => (r.name, "↳ " ++ r.text, r.likes)) := by
  intro rs
  induction rs with
  | nil => intro l h; simp [parseReplies] at h; subst h; simp
  | cons r rs ih =>
    intro l h
    rcases hft : formatTimestamp r.created_at with _ | d
    · simp [parseReplies, parseReply, hft] at h
    · rcases hrest : parseReplies pid title rs with _ | rest
      · simp [parseReplies, parseReply, hft, hrest] at h
      · simp [parseReplies, parseReply, hft, hrest] at h
        subst h
        simp [ih rest hrest]

/-- Projection of one comment's block: its own row first, then the reply
rows in order. -/
theorem parseComment_proj (pid title : String) (c : RawComment) (b : List CommentRow)
    (h : parseComment pid title c = some b) :
    b.map (fun r => (r.name, r.comment, r.likes))
      = (c.name, c.text, c.likes)
          :: (nonNullReplies c).map (fun r => (r.name, "↳ " ++ r.text, r.likes)) := by
  rcases hft : formatTimestamp c.created_at with _ | d
  · simp [parseComment, hft] at h
  · rcases hrep : parseReplies pid title (nonNullReplies c) with _ | l
    · simp [parseComment, hft, hrep] at h
    · simp [parseComment, hft, hrep] at h
      subst h
      simp [parseReplies_proj pid title _ l hrep]

/-- C5: whenever `parse_comments` succeeds, the emitted rows are, per
comment in order: one row carrying the comment's own name/text/likes
immediately followed by one row per non-null reply (null entries are
skipped by `nonNullReplies`) carrying the reply's name and likes and its
text prefixed by the `"↳ "` marker — so each comment with `R` non-null
replies contributes exactly `1 + R` rows. -/
theorem parse_comments_emits_rows (cs : List RawComment) (pid title : String)
    (rows : List CommentRow) (h : parse_comments cs pid title = some rows) :
    rows.map (fun r => (r.name, r.comment, r.likes))
        = cs.flatMap (fun c => (c.name, c.text, c.likes)
            :: (nonNullReplies c).map (fun r => (r.name, "↳ " ++ r.text, r.likes)))
      ∧ rows.length = (cs.map (fun c => 1 + (nonNullReplies c).length)).sum := by
  induction cs generalizing rows with
  | nil => simp [parse_comments] at h; subst h; simp
  | cons c cs ih =>
    rcases hb : parseComment pid title c with _ | b
    · simp [parse_comments, hb] at h
    · rcases hrest : parse_comments cs pid title with _ | rest
      · simp [parse_comments, hb, hrest] at h
      · simp [parse_comments, hb, hrest] at h
        subst h
        obtain ⟨ih1, ih2⟩ := ih rest hrest
        have hproj := parseComment_proj pid title c b hb
        have hlen : b.length = 1 + (nonNullReplies c).length := by
          have hl := congrArg List.length hproj
          simp at hl
          omega
        constructor
        · simp [hproj, ih1]
        · simp [hlen, ih2]


/-- Witness for `parse_comments_emits_rows` on a concrete comment with
two non-null replies and one null entry. -/
theorem parse_comments_emits_rows_witness :
    ([⟨"alice", "hello", "2024-06-15 13:00:00 EEST", 5, "t",
        "https://moescape.ai/posts/u"⟩,
      ⟨"bob", "↳ hi", "2024-06-15 14:00:00 EEST", 2, "t",
        "https://moescape.ai/posts/u"⟩,
      ⟨"carol", "↳ yo", "2024-01-15 12:00:00 EET", 0, "t",
        "https://moescape.ai/posts/u"⟩] : List CommentRow).map
          (fun r => (r.name, r.comment, r.likes))
        = ([⟨"alice", "hello", "2024-06-15T10:00:00Z", 5,
            some [some ⟨"bob", "hi", "2024-06-15T11:00:00Z", 2⟩, none,
                  some ⟨"carol", "yo", "2024-01-15T10:00:00Z", 0⟩]⟩]
            : List RawComment).flatMap
            (fun c => (c.name, c.text, c.likes)
              :: (nonNullReplies c).map (fun r => (r.name, "↳ " ++ r.text, r.likes)))
      ∧ ([⟨"alice", "hello", "2024-06-15 13:00:00 EEST", 5, "t",
            "https://moescape.ai/posts/u"⟩,
          ⟨"bob", "↳ hi", "2024-06-15 14:00:00 EEST", 2, "t",
            "https://moescape.ai/posts/u"⟩,
          ⟨"carol", "↳ yo", "2024-01-15 12:00:00 EET", 0, "t",
            "https://moescape.ai/posts/u"⟩] : List CommentRow).length
          = (([⟨"alice", "hello", "2024-06-15T10:00:00Z", 5,
              some [some ⟨"bob", "hi", "2024-06-15T11:00:00Z", 2⟩, none,
                    some ⟨"carol", "yo", "2024-01-15T10:00:00Z", 0⟩]⟩]
              : List RawComment).map
              (fun c => 1 + (nonNullReplies c).length)).sum :=
  parse_comments_emits_rows _ "u" "t" _ (by decide)


/-- Stability of `mergeSort` under a comparison that accepts every pair
with equal keys: the sublist of elements at any fixed key is unchanged. -/
theorem mergeSort_filter_key (le : Post → Post → Bool)
    (htrans : ∀ (a b c : Post), le a b → le b c → le a c)
    (htotal : ∀ (a b : Post), le a b || le b a)
    (hkey : ∀ (a b : Post), sortKey a = sortKey b → le a b)
    (posts : List Post) (k : String) :
    (posts.mergeSort le).filter (fun p => sortKey p == k)
      = posts.filter (fun p => sortKey p == k) := by
  have hmemk : ∀ a ∈ posts.filter (fun p => sortKey p == k), sortKey a = k :=
    fun a ha => by simpa using (List.mem_filter.mp ha).2
  have hpw : (posts.filter (fun p => sortKey p == k)).Pairwise fun a b => le a b := by
    refine List.pairwise_of_forall_mem_list fun a ha b hb => ?_
    exact hkey a b ((hmemk a ha).trans (hmemk b hb).symm)
  have hsub : List.Sublist (posts.filter (fun p => sortKey p == k))
      (posts.mergeSort le) :=
    List.sublist_mergeSort htrans htotal hpw (List.filter_sublist posts)
  have hself : (posts.filter (fun p => sortKey p == k)).filter (fun p => sortKey p == k)
      = posts.filter (fun p => sortKey p == k) :=
    List.filter_eq_self.mpr fun a ha => (List.mem_filter.mp ha).2
  have hsub2 : List.Sublist (posts.filter (fun p => sortKey p == k))
      ((posts.mergeSort le).filter (fun p => sortKey p == k)) := by
    have h := hsub.filter (fun p => sortKey p == k)
    rwa [hself] at h
  have hperm : List.Perm ((posts.mergeSort le).filter (fun p => sortKey p == k))
      (posts.filter (fun p => sortKey p == k)) :=
    (List.mergeSort_perm posts le).filter _
  exact (hsub2.eq_of_length hperm.length_eq.symm).symm

/-- C7: for both sort orders, the orchestrator's sorted post list is
ordered by the `created_at` key in the requested direction (descending
for `Most Recent`, ascending for `Oldest`), and the sort is stable: for
every key value, the posts carrying it appear in their original fetch
order (their filtered subsequence is unchanged). -/
theorem sorted_posts_ordered_and_stable (posts : List Post) :
    ((sortPosts .mostRecent posts).Pairwise fun a b => sortKey b ≤ sortKey a)
      ∧ ((sortPosts .oldest posts).Pairwise fun a b => sortKey a ≤ sortKey b)
      ∧ (∀ k, (sortPosts .mostRecent posts).filter (fun p => sortKey p == k)
          = posts.filter (fun p => sortKey p == k))
      ∧ (∀ k, (sortPosts .oldest posts).filter (fun p => sortKey p == k)
          = posts.filter (fun p => sortKey p == k)) := by
  have htransN : ∀ (a b c : Post), (decide (sortKey b ≤ sortKey a))
      → (decide (sortKey c ≤ sortKey b)) → (decide (sortKey c ≤ sortKey a)) := by
    intro a b c h1 h2
    simp only [decide_eq_true_eq] at h1 h2 ⊢
    exact le_trans h2 h1
  have htotalN : ∀ (a b : Post), (decide (sortKey b ≤ sortKey a))
      || (decide (sortKey a ≤ sortKey b)) := by
    intro a b
    simpa [Bool.or_eq_true, decide_eq_true_eq] using le_total (sortKey b) (sortKey a)
  have htransO : ∀ (a b c : Post), (decide (sortKey a ≤ sortKey b))
      → (decide (sortKey b ≤ sortKey c)) → (decide (sortKey a ≤ sortKey c)) := by
    intro a b c h1 h2
    simp only [decide_eq_true_eq] at h1 h2 ⊢
    exact le_trans h1 h2
  have htotalO : ∀ (a b : Post), (decide (sortKey a ≤ sortKey b))
      || (decide (sortKey b ≤ sortKey a)) := by
    intro a b
    simpa [Bool.or_eq_true, decide_eq_true_eq] using le_total (sortKey a) (sortKey b)
  refine ⟨?_, ?_, ?_, ?_⟩
  · have h := @List.sorted_mergeSort Post (fun a b => decide (sortKey b ≤ sortKey a))
      htransN htotalN posts
    exact h.imp fun hab => by simpa using hab
  · have h := @List.sorted_mergeSort Post (fun a b => decide (sortKey a ≤ sortKey b))
      htransO htotalO posts
    exact h.imp fun hab => by simpa using hab
  · intro k
    exact mergeSort_filter_key _ htransN htotalN
      (fun a b hab => by simp [hab]) posts k
  · intro k
    exact mergeSort_filter_key _ htransO htotalO
      (fun a b hab => by simp [hab]) posts k


/-- C6: timestamp conversion.  The claim's example holds: a summer
`Z`-suffixed UTC timestamp renders as Helsinki local time `UTC+3` with
the `EEST` abbreviation in `YYYY-MM-DD HH:MM:SS <zone>` format; a winter
timestamp renders at `UTC+2` as `EET` (the seasonal offset); an
explicit-offset form is accepted and — because `.replace(tzinfo=pytz.UTC)`
re-tags the wall clock as UTC — treated exactly as the corresponding UTC
wall-clock time: any two accepted input strings with the same wall-clock
components convert identically, whatever their offsets. -/
theorem utc_to_eest_conversion :
    formatTimestamp "2024-06-15T10:00:00Z" = some "2024-06-15 13:00:00 EEST"
      ∧ formatTimestamp "2024-01-15T10:00:00Z" = some "2024-01-15 12:00:00 EET"
      ∧ formatTimestamp "2024-06-15T10:00:00+05:00" = some "2024-06-15 13:00:00 EEST"
      ∧ ∀ (s₁ s₂ : String) (dt : NaiveDateTime) (off₁ off₂ : Option TzOffset),
          fromisoformat (replaceZ s₁) = some (dt, off₁) →
          fromisoformat (replaceZ s₂) = some (dt, off₂) →
          formatTimestamp s₁ = formatTimestamp s₂ := by
  refine ⟨by decide, by decide, by decide, ?_⟩
  intro s₁ s₂ dt off₁ off₂ h₁ h₂
  simp [formatTimestamp, utc_to_eest, h₁, h₂]

/-- Witness for `utc_to_eest_conversion`: an offset-carrying input and
the `Z` input with the same wall clock convert to the same string. -/
theorem utc_to_eest_conversion_witness :
    formatTimestamp "2024-06-15T10:00:00+02:30" = formatTimestamp "2024-06-15T10:00:00Z" :=
  utc_to_eest_conversion.2.2.2 "2024-06-15T10:00:00+02:30" "2024-06-15T10:00:00Z"
    ⟨2024, 6, 15, 10, 0, 0⟩ (some ⟨true, 2, 30⟩) (some ⟨true, 0, 0⟩)
    (by decide) (by decide)

end Comm
